import Mathlib

/-!
Shallow embedding of the dev-environment setup tool (`setup.py`, `utils.py`):
platform detection, package-manager adapters, manager selection, the
declarative configuration model, the installer, the file copier and the
status reporter.  External effects (shell commands, filesystem writes,
console prints) are recorded in explicit effect traces; the external world
is a record of oracles (`Env`).
-/

namespace DevSetup

/-- `leadsWith n h` is true iff the char list `n` starts the char list `h`. -/
def leadsWith : List Char → List Char → Bool
  | [], _ => true
  | _ :: _, [] => false
  | a :: as, b :: bs => a == b && leadsWith as bs

/-- `containsSeq n h` is true iff `n` occurs contiguously inside `h`
(models Python's `needle in haystack` on strings). -/
def containsSeq (needle : List Char) : List Char → Bool
  | [] => needle.isEmpty
  | c :: rest => leadsWith needle (c :: rest) || containsSeq needle rest

/-- Python `needle in haystack` for strings. -/
def strContains (haystack needle : String) : Bool :=
  containsSeq needle.data haystack.data

/-- Python `str.lower()` (ASCII case folding, as in `Char.toLower`). -/
def strLower (s : String) : String :=
  ⟨s.data.map Char.toLower⟩

/-- Python `str.strip()`: drop whitespace from both ends. -/
def strTrim (s : String) : String :=
  ⟨((s.data.dropWhile Char.isWhitespace).reverse.dropWhile
      Char.isWhitespace).reverse⟩

/-- `Platform` enum from `utils.py`. -/
inductive Platform where
  | windows
  | wsl
  | macos
  | unknown
deriving DecidableEq, Repr

/-- `Platform.value`: the string value of each enum member. -/
def Platform.value : Platform → String
  | .windows => "windows"
  | .wsl => "wsl"
  | .macos => "macos"
  | .unknown => "unknown"

/-- `Platform.is_unix`: WSL or macOS. -/
def Platform.isUnix (p : Platform) : Bool :=
  p == .wsl || p == .macos

/-- Host facts consumed by `Platform.detect`: whether `os.name == "nt"`,
whether `platform.system() == "Darwin"`, and the content of `/proc/version`
(`none` models `FileNotFoundError` / `PermissionError` on open/read). -/
structure DetectEnv where
  osNameNt : Bool
  sysDarwin : Bool
  procVersion : Option String

/-- The classification computed by `Platform.detect` on a cache miss:
windows if `os.name == "nt"`, else macos if Darwin, else wsl iff
`/proc/version` is readable and its lower-cased content contains
"microsoft", else unknown. -/
def detectCompute (e : DetectEnv) : Platform :=
  if e.osNameNt then .windows
  else if e.sysDarwin then .macos
  else
    match e.procVersion with
    | some content =>
        if strContains (strLower content) "microsoft" then .wsl else .unknown
    | none => .unknown

/-- `Platform.detect` with its memoization cell (`cls._cached`) passed
explicitly: returns the detected platform and the updated cell. -/
def detect (cache : Option Platform) (e : DetectEnv) : Platform × Option Platform :=
  match cache with
  | some p => (p, some p)
  | none => (detectCompute e, some (detectCompute e))

/-- The three concrete package-manager adapters. -/
inductive Manager where
  | winget
  | brew
  | apt
deriving DecidableEq, Repr

/-- The adapter's `name` field. -/
def Manager.mname : Manager → String
  | .winget => "winget"
  | .brew => "brew"
  | .apt => "apt"

/-- Observable external actions of a run. -/
inductive Effect where
  | listQuery (m : Manager)
  | cacheRefresh (m : Manager)
  | installRun (m : Manager) (cmd : String)
  | mkdirP (path : String)
  | copyFile (src dst : String)
  | printError (msg : String)
  | printNote (msg : String)
deriving DecidableEq, Repr

/-- True exactly for list-command invocations. -/
def Effect.isListQuery : Effect → Bool
  | .listQuery _ => true
  | _ => false

/-- Effects that mutate the system (run a real install, refresh a package
index, create a directory, write a file); prints and list queries are
read-only. -/
def Effect.isMutation : Effect → Bool
  | .installRun _ _ => true
  | .cacheRefresh _ => true
  | .mkdirP _ => true
  | .copyFile _ _ => true
  | _ => false

/-- The external world: availability of each manager, the outcome of each
manager's list command, the outcome of install commands (keyed by the full
command string), the home directory, and filesystem oracles. -/
structure Env where
  wingetAvailable : Bool
  brewAvailable : Bool
  aptAvailable : Bool
  wingetListSuccess : Bool
  wingetListLines : List String
  brewListSuccess : Bool
  brewListLines : List String
  aptListSuccess : Bool
  aptListLines : List String
  installSuccess : String → Bool
  home : String
  sourceExists : String → Bool
  mkdirOk : String → Bool
  copyOk : String → String → Bool

/-- Per-adapter-instance mutable fields: `_installed_cache` and
`_cache_updated`. -/
structure ManagerState where
  installedCache : Option (List String) := none
  cacheUpdated : Bool := false
deriving DecidableEq, Repr

/-- Success flag and raw output lines of the manager's list command. -/
def listOutput (m : Manager) (env : Env) : Bool × List String :=
  match m with
  | .winget => (env.wingetListSuccess, env.wingetListLines)
  | .brew => (env.brewListSuccess, env.brewListLines)
  | .apt => (env.aptListSuccess, env.aptListLines)

/-- The value `get_installed_packages` caches on a miss: winget lower-cases
each line; brew and apt strip then lower-case each line; a failed list
command yields the empty set. -/
def cacheLines (m : Manager) (env : Env) : List String :=
  let (ok, lines) := listOutput m env
  if ok then
    match m with
    | .winget => lines.map strLower
    | .brew => lines.map (fun s => strLower (strTrim s))
    | .apt => lines.map (fun s => strLower (strTrim s))
  else []

/-- `get_installed_packages`: return the cache if populated, otherwise run
the list command once, cache its (lower-cased) result and return it. -/
def getInstalledPackages (m : Manager) (st : ManagerState) (env : Env) :
    List String × ManagerState × List Effect :=
  match st.installedCache with
  | some c => (c, st, [])
  | none =>
      (cacheLines m env,
       { st with installedCache := some (cacheLines m env) },
       [Effect.listQuery m])

/-- The membership test `is_installed` applies to the installed set:
winget does a substring test of the lower-cased id against each cached
line; brew and apt do exact membership of the lower-cased id. -/
def memberCheck (m : Manager) (pid : String) (c : List String) : Bool :=
  match m with
  | .winget => c.any (fun line => strContains line (strLower pid))
  | .brew => c.contains (strLower pid)
  | .apt => c.contains (strLower pid)

/-- `is_installed`: fetch (and possibly populate) the installed set, then
run the manager's membership test. -/
def isInstalled (m : Manager) (pid : String) (st : ManagerState) (env : Env) :
    Bool × ManagerState × List Effect :=
  let r := getInstalledPackages m st env
  (memberCheck m pid r.1, r.2.1, r.2.2)

/-- The install command string each adapter builds; extra arguments are
appended only when present and non-empty (Python truthiness). -/
def installCmdString (m : Manager) (pid : String) (args : Option String) : String :=
  let base :=
    match m with
    | .winget =>
        "winget install " ++ pid ++
          " --accept-source-agreements --accept-package-agreements --silent"
    | .brew => "brew install " ++ pid
    | .apt => "sudo apt install -y " ++ pid
  match args with
  | some a => if a = "" then base else base ++ " " ++ a
  | none => base

/-- `install`: in dry-run mode return true without running anything;
otherwise execute the install command and return its success. -/
def managerInstall (m : Manager) (pid : String) (args : Option String)
    (dryRun : Bool) (env : Env) : Bool × List Effect :=
  let cmd := installCmdString m pid args
  if dryRun then (true, [])
  else (env.installSuccess cmd, [Effect.installRun m cmd])

/-- `update_cache`: winget is a no-op; brew and apt refresh once per
instance, and never in dry-run mode. -/
def updateCache (m : Manager) (st : ManagerState) (dryRun : Bool) :
    ManagerState × List Effect :=
  match m with
  | .winget => (st, [])
  | .brew =>
      if st.cacheUpdated || dryRun then (st, [])
      else ({ st with cacheUpdated := true }, [Effect.cacheRefresh .brew])
  | .apt =>
      if st.cacheUpdated || dryRun then (st, [])
      else ({ st with cacheUpdated := true }, [Effect.cacheRefresh .apt])

/-- `is_available` for each adapter (success of the probe command). -/
def isAvailable (m : Manager) (env : Env) : Bool :=
  match m with
  | .winget => env.wingetAvailable
  | .brew => env.brewAvailable
  | .apt => env.aptAvailable

/-- `get_package_manager`: winget on Windows (error if unavailable); brew
preferred on WSL/macOS, apt fallback only on WSL; error and none when
nothing is available; none silently on any other platform. -/
def getPackageManager (p : Platform) (env : Env) : Option Manager × List Effect :=
  match p with
  | .windows =>
      if env.wingetAvailable then (some .winget, [])
      else (none, [Effect.printError "winget not found on Windows"])
  | .wsl =>
      if env.brewAvailable then (some .brew, [])
      else if env.aptAvailable then
        (some .apt,
         [Effect.printNote "Using apt (install Homebrew for better package support)"])
      else (none, [Effect.printError ("No package manager found for " ++ Platform.value .wsl)])
  | .macos =>
      if env.brewAvailable then (some .brew, [])
      else (none, [Effect.printError ("No package manager found for " ++ Platform.value .macos)])
  | .unknown => (none, [])

/-- A package entry: name, platform-or-manager-keyed ids, and optional
per-platform extra arguments (`None` when the parsed arguments dict was
empty, as in `Config.load`). -/
structure Package where
  name : String
  ids : List (String × String)
  arguments : Option (List (String × String)) := none

/-- `Package.get_id`: manager-name key first, then platform-value key,
else none. -/
def Package.get_id (pkg : Package) (p : Platform) (m : Manager) : Option String :=
  match pkg.ids.lookup m.mname with
  | some v => some v
  | none => pkg.ids.lookup p.value

/-- `Package.get_arguments`: platform key `or` the "default" key, with
Python truthiness — an empty string under the platform key falls through
to the "default" key. -/
def Package.get_arguments (pkg : Package) (p : Platform) : Option String :=
  match pkg.arguments with
  | none => none
  | some args =>
      match args.lookup p.value with
      | some v => if v = "" then args.lookup "default" else some v
      | none => args.lookup "default"

/-- A file mapping: source path and platform-keyed destination paths. -/
structure FileMapping where
  source : String
  destinations : List (String × String)

/-- `Path.expanduser` for the forms the config uses: a leading `~` or
`~/...` is replaced by the home directory; other paths are unchanged. -/
def expanduser (env : Env) (path : String) : String :=
  if path = "~" then env.home
  else if leadsWith "~/".data path.data then env.home ++ path.drop 1
  else path

/-- `FileMapping.get_destination`: look up the platform key and expand the
home-directory shorthand in the result. -/
def FileMapping.get_destination (fm : FileMapping) (p : Platform) (env : Env) :
    Option String :=
  (fm.destinations.lookup p.value).map (expanduser env)

/-- Split a char list on `'/'`. -/
def splitSlash : List Char → List (List Char)
  | [] => [[]]
  | c :: rest =>
      match splitSlash rest with
      | [] => [[]]
      | h :: t => if c == '/' then [] :: h :: t else (c :: h) :: t

/-- Rejoin char-list path segments with `'/'`. -/
def joinSlash : List (List Char) → List Char
  | [] => []
  | [l] => l
  | l :: rest => l ++ '/' :: joinSlash rest

/-- `Path.parent` of a slash-separated path string: all segments but the
last, or `"."` for a single-segment path. -/
def parentOf (path : String) : String :=
  let parts := splitSlash path.data
  if parts.length ≤ 1 then "." else ⟨joinSlash parts.dropLast⟩

/-- The loaded configuration: section-keyed package lists, file mappings
and free-form metadata. -/
structure Config where
  packages : List (String × List Package)
  files : List FileMapping
  meta : List (String × String) := []

/-- The sections `install_packages` processes, in order: common always;
gui_only and windows_only on Windows; unix_only on WSL/macOS; wsl_only on
WSL; macos_only on macOS. -/
def sectionsFor (p : Platform) : List String :=
  "common" ::
    (match p with
     | .windows => ["gui_only", "windows_only"]
     | .wsl => ["unix_only", "wsl_only"]
     | .macos => ["unix_only", "macos_only"]
     | .unknown => [])

/-- Triple of counters (success, skip, fail). -/
def Counts := Nat × Nat × Nat
deriving DecidableEq, Repr

/-- Component-wise addition of counter triples. -/
def addCounts (a b : Counts) : Counts :=
  (a.1 + b.1, a.2.1 + b.2.1, a.2.2 + b.2.2)

/-- The loop body of `install_packages` (normal mode) for one package:
no resolvable id → SKIP; already installed → SKIP; otherwise run the
install and count OK or FAIL. -/
def processPackage (m : Manager) (p : Platform) (pkg : Package)
    (st : ManagerState) (env : Env) : Counts × ManagerState × List Effect :=
  match pkg.get_id p m with
  | none => ((0, 1, 0), st, [])
  | some pid =>
      let r := isInstalled m pid st env
      if r.1 then ((0, 1, 0), r.2.1, r.2.2)
      else
        let args := pkg.get_arguments p
        let ir := managerInstall m pid args false env
        (if ir.1 then ((1, 0, 0) : Counts) else (0, 0, 1), r.2.1, r.2.2 ++ ir.2)

/-- Normal-mode package loop over one section's package list. -/
def runInstallPkgs (m : Manager) (p : Platform) (env : Env) :
    List Package → ManagerState → Counts × ManagerState × List Effect
  | [], st => ((0, 0, 0), st, [])
  | pkg :: rest, st =>
      let r := processPackage m p pkg st env
      let rr := runInstallPkgs m p env rest r.2.1
      (addCounts r.1 rr.1, rr.2.1, r.2.2 ++ rr.2.2)

/-- Normal-mode section loop (`config.packages.get(section, [])`). -/
def runInstallSections (config : Config) (m : Manager) (p : Platform) (env : Env) :
    List String → ManagerState → Counts × ManagerState × List Effect
  | [], st => ((0, 0, 0), st, [])
  | s :: rest, st =>
      let pkgs := (config.packages.lookup s).getD []
      let r := runInstallPkgs m p env pkgs st
      let rr := runInstallSections config m p env rest r.2.1
      (addCounts r.1 rr.1, rr.2.1, r.2.2 ++ rr.2.2)

/-- The loop body of the dry-run table in `install_packages` for one
package: no id → SKIP row; installed → SKIP row; else an INSTALL row
counted as success. -/
def dryProcessPackage (m : Manager) (p : Platform) (pkg : Package)
    (st : ManagerState) (env : Env) : Counts × ManagerState × List Effect :=
  match pkg.get_id p m with
  | none => ((0, 1, 0), st, [])
  | some pid =>
      let r := isInstalled m pid st env
      if r.1 then ((0, 1, 0), r.2.1, r.2.2)
      else ((1, 0, 0), r.2.1, r.2.2)

/-- Dry-run package loop over one section's package list. -/
def runDryPkgs (m : Manager) (p : Platform) (env : Env) :
    List Package → ManagerState → Counts × ManagerState × List Effect
  | [], st => ((0, 0, 0), st, [])
  | pkg :: rest, st =>
      let r := dryProcessPackage m p pkg st env
      let rr := runDryPkgs m p env rest r.2.1
      (addCounts r.1 rr.1, rr.2.1, r.2.2 ++ rr.2.2)

/-- Dry-run section loop. -/
def runDrySections (config : Config) (m : Manager) (p : Platform) (env : Env) :
    List String → ManagerState → Counts × ManagerState × List Effect
  | [], st => ((0, 0, 0), st, [])
  | s :: rest, st =>
      let pkgs := (config.packages.lookup s).getD []
      let r := runDryPkgs m p env pkgs st
      let rr := runDrySections config m p env rest r.2.1
      (addCounts r.1 rr.1, rr.2.1, r.2.2 ++ rr.2.2)

/-- `install_packages`: refresh the manager cache once (never in dry-run),
then process the platform's sections; dry-run only classifies rows. -/
def installPackages (config : Config) (p : Platform) (m : Manager)
    (st : ManagerState) (env : Env) (dryRun : Bool) :
    Counts × ManagerState × List Effect :=
  if dryRun then
    runDrySections config m p env (sectionsFor p) st
  else
    let u := updateCache m st false
    let r := runInstallSections config m p env (sectionsFor p) u.1
    (r.1, r.2.1, u.2 ++ r.2.2)

/-- The loop body of `copy_files` (normal mode) for one mapping: no
destination → SKIP; missing source → FAIL with no filesystem action;
otherwise mkdir-parents then copy, each of which may raise — an exception
is caught and counted as FAIL for this entry. -/
def copyOne (fm : FileMapping) (p : Platform) (env : Env) : Counts × List Effect :=
  match fm.get_destination p env with
  | none => ((0, 1, 0), [])
  | some dest =>
      if env.sourceExists fm.source then
        let parent := parentOf dest
        if env.mkdirOk parent then
          if env.copyOk fm.source dest then
            ((1, 0, 0), [Effect.mkdirP parent, Effect.copyFile fm.source dest])
          else ((0, 0, 1), [Effect.mkdirP parent])
        else ((0, 0, 1), [])
      else ((0, 0, 1), [])

/-- Normal-mode file loop. -/
def copyFilesNormal (p : Platform) (env : Env) :
    List FileMapping → Counts × List Effect
  | [] => ((0, 0, 0), [])
  | fm :: rest =>
      let r := copyOne fm p env
      let rr := copyFilesNormal p env rest
      (addCounts r.1 rr.1, r.2 ++ rr.2)

/-- The dry-run table row of `copy_files` for one mapping. -/
def dryCopyOne (fm : FileMapping) (p : Platform) (env : Env) : Counts :=
  match fm.get_destination p env with
  | none => (0, 1, 0)
  | some _ =>
      if env.sourceExists fm.source then (1, 0, 0) else (0, 0, 1)

/-- Dry-run file loop: classification only, no effects. -/
def dryCopyAll (p : Platform) (env : Env) : List FileMapping → Counts
  | [] => (0, 0, 0)
  | fm :: rest => addCounts (dryCopyOne fm p env) (dryCopyAll p env rest)

/-- `copy_files`. -/
def copyFiles (config : Config) (p : Platform) (env : Env) (dryRun : Bool) :
    Counts × List Effect :=
  if dryRun then (dryCopyAll p env config.files, [])
  else copyFilesNormal p env config.files

/-- The section filter of `show_status`: true iff the section is NOT
skipped for this platform. -/
def statusKeeps (s : String) (p : Platform) : Bool :=
  ¬(s = "gui_only" ∧ p ≠ .windows) ∧
  ¬(s = "windows_only" ∧ p ≠ .windows) ∧
  ¬(s = "unix_only" ∧ p.isUnix = false) ∧
  ¬(s = "wsl_only" ∧ p ≠ .wsl) ∧
  ¬(s = "macos_only" ∧ p ≠ .macos)

/-- The package loop of `show_status` for one section: packages with no
resolvable id are not counted; others add to (installed, total). -/
def runStatusPkgs (m : Manager) (p : Platform) (env : Env) :
    List Package → ManagerState → (Nat × Nat) × ManagerState × List Effect
  | [], st => ((0, 0), st, [])
  | pkg :: rest, st =>
      match pkg.get_id p m with
      | none => runStatusPkgs m p env rest st
      | some pid =>
          let r := isInstalled m pid st env
          let rr := runStatusPkgs m p env rest r.2.1
          (((if r.1 then 1 else 0) + rr.1.1, 1 + rr.1.2), rr.2.1, r.2.2 ++ rr.2.2)

/-- The section loop of `show_status` over `config.packages.items()`,
applying the platform filter. -/
def runStatusSections (m : Manager) (p : Platform) (env : Env) :
    List (String × List Package) → ManagerState → (Nat × Nat) × ManagerState × List Effect
  | [], st => ((0, 0), st, [])
  | (s, pkgs) :: rest, st =>
      if statusKeeps s p then
        let r := runStatusPkgs m p env pkgs st
        let rr := runStatusSections m p env rest r.2.1
        ((r.1.1 + rr.1.1, r.1.2 + rr.1.2), rr.2.1, r.2.2 ++ rr.2.2)
      else runStatusSections m p env rest st

/-- `show_status`: select a manager (early return when none, after the
selector printed its error), then the read-only counting pass; returns
(installed_count, total_count) and the effect trace. -/
def showStatus (config : Config) (p : Platform) (env : Env) :
    (Nat × Nat) × List Effect :=
  match getPackageManager p env with
  | (none, ef) => ((0, 0), ef)
  | (some m, ef) =>
      let r := runStatusSections m p env config.packages {}
      (r.1, ef ++ r.2.2)

/-- The set (as a list) of section names whose packages `show_status`
iterates for a config and platform. -/
def statusSections (config : Config) (p : Platform) : List String :=
  (config.packages.map Prod.fst).filter (fun s => statusKeeps s p)

/-- The `status` command path of `main` after platform detection and
config loading: unknown platform exits 2; otherwise `show_status` runs and
`main` returns 0 unconditionally. -/
def mainStatus (config : Config) (p : Platform) (env : Env) : Nat × List Effect :=
  if p = .unknown then (2, [Effect.printError "Unsupported platform"])
  else
    let r := showStatus config p env
    (0, r.2)

/-- The section names handled by the installer's fixed selection and the
status reporter's filters. -/
def knownSections : List String :=
  ["common", "gui_only", "windows_only", "unix_only", "wsl_only", "macos_only"]

/-- A baseline external world: only brew available, empty brew list (so
`git` is absent), every install command succeeds, every source file
missing. -/
def envBase : Env where
  wingetAvailable := false
  brewAvailable := true
  aptAvailable := false
  wingetListSuccess := true
  wingetListLines := []
  brewListSuccess := true
  brewListLines := []
  aptListSuccess := true
  aptListLines := []
  installSuccess := fun _ => true
  home := "/home/user"
  sourceExists := fun _ => false
  mkdirOk := fun _ => true
  copyOk := fun _ _ => true

/-- The config produced by `Config.load` for `packages.common.git = "git"`:
the bare string is stored under the `"default"` key. -/
def cfgBareGit : Config where
  packages := [("common", [{ name := "git", ids := [("default", "git")] }])]
  files := []

/-- A config with a package section named `"other"`, outside the
installer's fixed section list, holding one brew-resolvable package. -/
def cfgOther : Config where
  packages := [("other", [{ name := "foo", ids := [("brew", "foo")] }])]
  files := []

/-- A world with no package manager available at all. -/
def envNoManager : Env :=
  { envBase with brewAvailable := false }

/-- A config using only known section names (one always-applicable
section and one Windows-gated section), both empty. -/
def cfgKnown : Config where
  packages := [("common", []), ("gui_only", [])]
  files := []

/-- The file mapping produced for `"dotfiles/.zshrc" = "~/.zshrc"`
(single-destination form, same path for all three platforms). -/
def fmZshrc : FileMapping where
  source := "dotfiles/.zshrc"
  destinations :=
    [("windows", "~/.zshrc"), ("wsl", "~/.zshrc"), ("macos", "~/.zshrc")]

/-- A world where every source exists but every copy raises. -/
def envCopyFail : Env :=
  { envBase with sourceExists := fun _ => true, copyOk := fun _ _ => false }

/-- The only state change read-only adapter queries can make: either the
state is untouched, or an empty installed-cache got populated with the
list-command result. -/
def cacheFill (m : Manager) (env : Env) (st st' : ManagerState) : Prop :=
  st' = st ∨
  (st.installedCache = none ∧
   st' = { st with installedCache := some (cacheLines m env) })

/-!  Helper lemmas  -/

theorem isInstalled_fst (m : Manager) (pid : String) (st : ManagerState) (env : Env) :
    (isInstalled m pid st env).1
      = memberCheck m pid (st.installedCache.getD (cacheLines m env)) := by
  cases h : st.installedCache <;> simp [isInstalled, getInstalledPackages, h]

theorem isInstalled_effects (m : Manager) (pid : String) (st : ManagerState) (env : Env) :
    (isInstalled m pid st env).2.2 = [] ∨
    (isInstalled m pid st env).2.2 = [Effect.listQuery m] := by
  cases h : st.installedCache <;> simp [isInstalled, getInstalledPackages, h]

theorem isInstalled_effects_mutation (m : Manager) (pid : String) (st : ManagerState)
    (env : Env) : ∀ e ∈ (isInstalled m pid st env).2.2, e.isMutation = false := by
  rcases isInstalled_effects m pid st env with h | h <;> rw [h] <;>
    simp [Effect.isMutation]

theorem isInstalled_cacheFill (m : Manager) (pid : String) (st : ManagerState)
    (env : Env) : cacheFill m env st (isInstalled m pid st env).2.1 := by
  cases h : st.installedCache
  · exact Or.inr ⟨h, by simp [isInstalled, getInstalledPackages, h]⟩
  · exact Or.inl (by simp [isInstalled, getInstalledPackages, h])

theorem cacheFill_trans {m : Manager} {env : Env} {st st' st'' : ManagerState}
    (h1 : cacheFill m env st st') (h2 : cacheFill m env st' st'') :
    cacheFill m env st st'' := by
  rcases h2 with h2 | ⟨hc, h2⟩
  · exact h2 ▸ h1
  · rcases h1 with h1 | ⟨hc1, h1⟩
    · exact Or.inr ⟨h1 ▸ hc, by rw [h2, h1]⟩
    · rw [h1] at hc; simp at hc

theorem cacheFill_getD {m : Manager} {env : Env} {st st' : ManagerState}
    (h : cacheFill m env st st') :
    st'.installedCache.getD (cacheLines m env)
      = st.installedCache.getD (cacheLines m env) := by
  rcases h with h | ⟨hc, h⟩
  · rw [h]
  · rw [h, hc]; rfl

theorem cacheFill_updated {m : Manager} {env : Env} {st st' : ManagerState}
    (h : cacheFill m env st st') : st'.cacheUpdated = st.cacheUpdated := by
  rcases h with h | ⟨_, h⟩ <;> rw [h]

theorem cacheFill_isInstalled {m : Manager} {env : Env} {st st' : ManagerState}
    (h : cacheFill m env st st') (pid : String) :
    (isInstalled m pid st' env).1 = (isInstalled m pid st env).1 := by
  rw [isInstalled_fst, isInstalled_fst, cacheFill_getD h]

theorem dryProcessPackage_state (m : Manager) (p : Platform) (pkg : Package)
    (st : ManagerState) (env : Env) :
    cacheFill m env st (dryProcessPackage m p pkg st env).2.1 := by
  unfold dryProcessPackage
  cases pkg.get_id p m with
  | none => exact Or.inl rfl
  | some pid =>
      simp only []
      split <;> exact isInstalled_cacheFill m pid st env

theorem dryProcessPackage_effects (m : Manager) (p : Platform) (pkg : Package)
    (st : ManagerState) (env : Env) :
    ∀ e ∈ (dryProcessPackage m p pkg st env).2.2, e.isMutation = false := by
  unfold dryProcessPackage
  cases h : pkg.get_id p m with
  | none => simp
  | some pid =>
      simp only []
      split <;> exact isInstalled_effects_mutation m pid st env

theorem runDryPkgs_state (m : Manager) (p : Platform) (env : Env) :
    ∀ (pkgs : List Package) (st : ManagerState),
      cacheFill m env st (runDryPkgs m p env pkgs st).2.1
  | [], _st => Or.inl rfl
  | pkg :: rest, st =>
      cacheFill_trans (dryProcessPackage_state m p pkg st env)
        (runDryPkgs_state m p env rest (dryProcessPackage m p pkg st env).2.1)

theorem runDryPkgs_effects (m : Manager) (p : Platform) (env : Env) :
    ∀ (pkgs : List Package) (st : ManagerState),
      ∀ e ∈ (runDryPkgs m p env pkgs st).2.2, e.isMutation = false := by
  intro pkgs
  induction pkgs with
  | nil => intro st e he; simp [runDryPkgs] at he
  | cons pkg rest ih =>
      intro st e he
      rw [runDryPkgs] at he
      rcases List.mem_append.1 he with h | h
      · exact dryProcessPackage_effects m p pkg st env e h
      · exact ih _ e h

theorem runDrySections_state (config : Config) (m : Manager) (p : Platform) (env : Env) :
    ∀ (secs : List String) (st : ManagerState),
      cacheFill m env st (runDrySections config m p env secs st).2.1
  | [], _st => Or.inl rfl
  | s :: rest, st =>
      cacheFill_trans
        (runDryPkgs_state m p env ((config.packages.lookup s).getD []) st)
        (runDrySections_state config m p env rest _)

theorem runDrySections_effects (config : Config) (m : Manager) (p : Platform)
    (env : Env) :
    ∀ (secs : List String) (st : ManagerState),
      ∀ e ∈ (runDrySections config m p env secs st).2.2, e.isMutation = false := by
  intro secs
  induction secs with
  | nil => intro st e he; simp [runDrySections] at he
  | cons s rest ih =>
      intro st e he
      rw [runDrySections] at he
      rcases List.mem_append.1 he with h | h
      · exact runDryPkgs_effects m p env _ st e h
      · exact ih _ e h

theorem runStatusPkgs_effects (m : Manager) (p : Platform) (env : Env) :
    ∀ (pkgs : List Package) (st : ManagerState),
      ∀ e ∈ (runStatusPkgs m p env pkgs st).2.2, e.isMutation = false := by
  intro pkgs
  induction pkgs with
  | nil => intro st e he; simp [runStatusPkgs] at he
  | cons pkg rest ih =>
      intro st e he
      rw [runStatusPkgs] at he
      rcases h : pkg.get_id p m with _ | pid
      · rw [h] at he; exact ih _ e he
      · rw [h] at he
        simp only [] at he
        rcases List.mem_append.1 he with h2 | h2
        · exact isInstalled_effects_mutation m pid st env e h2
        · exact ih _ e h2

theorem runStatusSections_effects (m : Manager) (p : Platform) (env : Env) :
    ∀ (secs : List (String × List Package)) (st : ManagerState),
      ∀ e ∈ (runStatusSections m p env secs st).2.2, e.isMutation = false := by
  intro secs
  induction secs with
  | nil => intro st e he; simp [runStatusSections] at he
  | cons sp rest ih =>
      intro st e he
      rw [runStatusSections] at he
      by_cases hk : statusKeeps sp.1 p
      · rw [if_pos hk] at he
        rcases List.mem_append.1 he with h | h
        · exact runStatusPkgs_effects m p env sp.2 st e h
        · exact ih _ e h
      · rw [if_neg hk] at he; exact ih st e he

theorem getPackageManager_effects (p : Platform) (env : Env) :
    ∀ e ∈ (getPackageManager p env).2, e.isMutation = false := by
  cases p <;> cases hw : env.wingetAvailable <;> cases hb : env.brewAvailable <;>
    cases ha : env.aptAvailable <;>
    simp [getPackageManager, hw, hb, ha, Effect.isMutation]

theorem showStatus_effects (config : Config) (p : Platform) (env : Env) :
    ∀ e ∈ (showStatus config p env).2, e.isMutation = false := by
  intro e he
  unfold showStatus at he
  rcases hm : getPackageManager p env with ⟨mo, ef⟩
  rcases mo with _ | m
  · rw [hm] at he
    have := getPackageManager_effects p env e
    rw [hm] at this
    exact this he
  · rw [hm] at he
    simp only [] at he
    rcases List.mem_append.1 he with h | h
    · have := getPackageManager_effects p env e
      rw [hm] at this
      exact this h
    · exact runStatusSections_effects m p env config.packages {} e h

theorem statusKeeps_iff_mem (s : String) (p : Platform) (hs : s ∈ knownSections) :
    statusKeeps s p = true ↔ s ∈ sectionsFor p := by
  simp only [knownSections, List.mem_cons, List.not_mem_nil, or_false] at hs
  rcases hs with rfl | rfl | rfl | rfl | rfl | rfl <;> cases p <;> decide

/-!  Theorems  -/

/-- C4: for every platform P and manager M, whenever a package's ids
mapping contains both an entry keyed by M's name and an entry keyed by P's
platform value, `Package.get_id` returns the manager-keyed entry; if only
the platform-keyed entry exists it returns that; if neither exists it
returns none. -/
theorem c4_get_id_precedence (pkg : Package) (p : Platform) (m : Manager) :
    (∀ v w, pkg.ids.lookup m.mname = some v → pkg.ids.lookup p.value = some w →
       pkg.get_id p m = some v) ∧
    (∀ w, pkg.ids.lookup m.mname = none → pkg.ids.lookup p.value = some w →
       pkg.get_id p m = some w) ∧
    (pkg.ids.lookup m.mname = none → pkg.ids.lookup p.value = none →
       pkg.get_id p m = none) := by
  refine ⟨fun v w hv _ => ?_, fun w hm hw => ?_, fun hm hp => ?_⟩ <;>
    simp [Package.get_id, *]

/-- Witness for C4 at concrete inputs: a package holding both a brew key
and a macos key resolves to the brew entry; one with only a macos key
resolves to it; one with neither resolves to none. -/
theorem c4_get_id_precedence_witness :
    Package.get_id { name := "a", ids := [("brew", "b"), ("macos", "m")] } .macos .brew
      = some "b" ∧
    Package.get_id { name := "a", ids := [("macos", "m")] } .macos .brew = some "m" ∧
    Package.get_id { name := "a", ids := [("default", "d")] } .macos .brew = none := by
  refine ⟨?_, ?_, ?_⟩
  · exact (c4_get_id_precedence { name := "a", ids := [("brew", "b"), ("macos", "m")] }
      .macos .brew).1 "b" "m" (by decide) (by decide)
  · exact (c4_get_id_precedence { name := "a", ids := [("macos", "m")] }
      .macos .brew).2.1 "m" (by decide) (by decide)
  · exact (c4_get_id_precedence { name := "a", ids := [("default", "d")] }
      .macos .brew).2.2 (by decide) (by decide)

/-- C5: a package whose id does not resolve is classified SKIP in both the
normal and the dry-run installer loop: only skip_count increments, the
manager state is untouched and no effect (in particular no install
command) is produced — it is never treated as an error. -/
theorem c5_no_id_skip (m : Manager) (p : Platform) (pkg : Package)
    (st : ManagerState) (env : Env) (h : pkg.get_id p m = none) :
    processPackage m p pkg st env = ((0, 1, 0), st, []) ∧
    dryProcessPackage m p pkg st env = ((0, 1, 0), st, []) := by
  constructor <;> simp [processPackage, dryProcessPackage, h]

/-- Witness for C5: a package with an empty ids mapping resolves to none
and both loops classify it SKIP with no effects. -/
theorem c5_no_id_skip_witness :
    processPackage .brew .macos { name := "x", ids := [] } {} envBase
      = ((0, 1, 0), {}, []) ∧
    dryProcessPackage .brew .macos { name := "x", ids := [] } {} envBase
      = ((0, 1, 0), {}, []) :=
  c5_no_id_skip .brew .macos { name := "x", ids := [] } {} envBase (by decide)

/-- C1 (code bug): for the config `packages.common.git = "git"` on macos
with brew selected and `git` absent from the brew list, the installer
resolves NO id for the package — the bare string was stored under the
`"default"` key, which `Package.get_id` never consults — so the run
classifies it SKIP with counters (0, 1, 0) and the only external action is
the one-time cache refresh: no install command runs and success_count
stays 0, contradicting the claimed OK/+1.  The last conjunct shows the
`"default"` fallback does exist in `Package.get_arguments`, evidencing
that its absence from `Package.get_id` is the slip. -/
theorem c1_bare_string_package_skipped :
    (installPackages cfgBareGit .macos .brew {} envBase false).1 = (0, 1, 0) ∧
    (installPackages cfgBareGit .macos .brew {} envBase false).2.2
      = [Effect.cacheRefresh .brew] ∧
    Package.get_id { name := "git", ids := [("default", "git")] } .macos .brew = none ∧
    Package.get_arguments
      { name := "git", ids := [("default", "git")],
        arguments := some [("default", "-v")] } .macos = some "-v" := by
  refine ⟨rfl, rfl, by decide, by decide⟩

/-- C8: manager selection — winget on Windows (error and none when
unavailable); brew preferred on WSL and macOS; apt only as WSL fallback;
error and none when nothing applies; none on any other platform. -/
theorem c8_manager_selection (env : Env) :
    (env.wingetAvailable = true →
       getPackageManager .windows env = (some .winget, [])) ∧
    (env.wingetAvailable = false →
       (getPackageManager .windows env).1 = none ∧
       ∃ msg, Effect.printError msg ∈ (getPackageManager .windows env).2) ∧
    (env.brewAvailable = true →
       getPackageManager .wsl env = (some .brew, []) ∧
       getPackageManager .macos env = (some .brew, [])) ∧
    (env.brewAvailable = false → env.aptAvailable = true →
       (getPackageManager .wsl env).1 = some .apt ∧
       (getPackageManager .macos env).1 = none ∧
       ∃ msg, Effect.printError msg ∈ (getPackageManager .macos env).2) ∧
    (env.brewAvailable = false → env.aptAvailable = false →
       (getPackageManager .wsl env).1 = none ∧
       (∃ msg, Effect.printError msg ∈ (getPackageManager .wsl env).2) ∧
       (getPackageManager .macos env).1 = none) ∧
    getPackageManager .unknown env = (none, []) := by
  refine ⟨fun h1 => ?_, fun h1 => ?_, fun h1 => ?_, fun h1 h2 => ?_,
    fun h1 h2 => ?_, rfl⟩ <;>
    simp [getPackageManager, h1, *]

/-- Witness for C8 at concrete worlds: brew-only world selects brew on
macos; the manager-less world yields none with an error on windows, wsl
and macos; apt-only world selects apt on wsl but errors on macos. -/
theorem c8_manager_selection_witness :
    getPackageManager .macos envBase = (some .brew, []) ∧
    (getPackageManager .windows envNoManager).1 = none ∧
    (getPackageManager .wsl envNoManager).1 = none ∧
    (getPackageManager .wsl { envNoManager with aptAvailable := true }).1
      = some .apt ∧
    (getPackageManager .macos { envNoManager with aptAvailable := true }).1
      = none := by
  refine ⟨((c8_manager_selection envBase).2.2.1 rfl).2, ?_, ?_, ?_, ?_⟩
  · exact ((c8_manager_selection envNoManager).2.1 rfl).1
  · exact ((c8_manager_selection envNoManager).2.2.2.2.1 rfl rfl).1
  · exact ((c8_manager_selection { envNoManager with aptAvailable := true }
      ).2.2.2.1 rfl rfl).1
  · exact ((c8_manager_selection { envNoManager with aptAvailable := true }
      ).2.2.2.1 rfl rfl).2.1

/-- C9: platform detection classifies windows first, then macos (Darwin),
then wsl iff the marker file is readable and its lower-cased content
contains "microsoft", else unknown; an unreadable marker file (modelled by
`procVersion = none`, covering FileNotFoundError and PermissionError)
yields not-wsl; and detection is memoized — after the first call, a later
call returns the first result and leaves the cache unchanged, whatever the
later host facts are. -/
theorem c9_platform_detect (e e' : DetectEnv) (content : String) :
    (e.osNameNt = true → detectCompute e = .windows) ∧
    (e.osNameNt = false → e.sysDarwin = true → detectCompute e = .macos) ∧
    (e.osNameNt = false → e.sysDarwin = false → e.procVersion = some content →
       strContains (strLower content) "microsoft" = true → detectCompute e = .wsl) ∧
    (e.osNameNt = false → e.sysDarwin = false → e.procVersion = some content →
       strContains (strLower content) "microsoft" = false →
       detectCompute e = .unknown) ∧
    (e.osNameNt = false → e.sysDarwin = false → e.procVersion = none →
       detectCompute e = .unknown) ∧
    ((detect (detect none e).2 e').1 = (detect none e).1 ∧
     (detect (detect none e).2 e').2 = (detect none e).2) := by
  refine ⟨fun h1 => ?_, fun h1 h2 => ?_, fun h1 h2 h3 h4 => ?_,
    fun h1 h2 h3 h4 => ?_, fun h1 h2 h3 => ?_, rfl, rfl⟩ <;>
    simp [detectCompute, *]

/-- Witness for C9 at concrete host facts, exercising each classification
branch (including a mixed-case "Microsoft" marker and the unreadable
marker) and the memoization equations. -/
theorem c9_platform_detect_witness :
    detectCompute ⟨true, false, none⟩ = .windows ∧
    detectCompute ⟨false, true, none⟩ = .macos ∧
    detectCompute ⟨false, false, some "Linux version 5.15 Microsoft WSL2"⟩ = .wsl ∧
    detectCompute ⟨false, false, some "Linux version 6.1 generic"⟩ = .unknown ∧
    detectCompute ⟨false, false, none⟩ = .unknown ∧
    (detect (detect none ⟨false, true, none⟩).2 ⟨true, false, none⟩).1
      = (detect none ⟨false, true, none⟩).1 := by
  refine ⟨?_, ?_, ?_, ?_, ?_, ?_⟩
  · exact (c9_platform_detect ⟨true, false, none⟩ ⟨true, false, none⟩ "").1 rfl
  · exact (c9_platform_detect ⟨false, true, none⟩ ⟨true, false, none⟩ "").2.1 rfl rfl
  · exact (c9_platform_detect ⟨false, false, some "Linux version 5.15 Microsoft WSL2"⟩
      ⟨true, false, none⟩ "Linux version 5.15 Microsoft WSL2").2.2.1 rfl rfl rfl
      (by decide)
  · exact (c9_platform_detect ⟨false, false, some "Linux version 6.1 generic"⟩
      ⟨true, false, none⟩ "Linux version 6.1 generic").2.2.2.1 rfl rfl rfl (by decide)
  · exact (c9_platform_detect ⟨false, false, none⟩ ⟨true, false, none⟩ "").2.2.2.2.1
      rfl rfl rfl
  · exact (c9_platform_detect ⟨false, true, none⟩ ⟨true, false, none⟩ "").2.2.2.2.2.1

/-- C6: in dry-run mode, the installer produces no mutating effect (no
real install command, no cache refresh), leaves the one-shot cache-update
flag unchanged, and preserves every later `is_installed` answer; the
adapters' `install` in dry-run returns true with no effect, dry-run
`update_cache` is a no-op, and the dry-run file copier copies nothing and
creates no directory.  (`is_available` reads only the environment in this
embedding, so dry-run cannot change it by construction.) -/
theorem c6_dry_run_frame (config : Config) (p : Platform) (m : Manager)
    (st : ManagerState) (env : Env) :
    (∀ e ∈ (installPackages config p m st env true).2.2, e.isMutation = false) ∧
    (installPackages config p m st env true).2.1.cacheUpdated = st.cacheUpdated ∧
    (∀ pid, (isInstalled m pid (installPackages config p m st env true).2.1 env).1
        = (isInstalled m pid st env).1) ∧
    (∀ (mm : Manager) (pid : String) (args : Option String),
        managerInstall mm pid args true env = (true, [])) ∧
    (∀ (mm : Manager) (st' : ManagerState), updateCache mm st' true = (st', [])) ∧
    (copyFiles config p env true).2 = [] := by
  have hs : installPackages config p m st env true
      = runDrySections config m p env (sectionsFor p) st := by
    simp [installPackages]
  refine ⟨?_, ?_, ?_, ?_, ?_, ?_⟩
  · rw [hs]; exact runDrySections_effects config m p env (sectionsFor p) st
  · rw [hs]
    exact cacheFill_updated (runDrySections_state config m p env (sectionsFor p) st)
  · intro pid
    rw [hs]
    exact cacheFill_isInstalled
      (runDrySections_state config m p env (sectionsFor p) st) pid
  · intro mm pid args; simp [managerInstall]
  · intro mm st'; cases mm <;> simp [updateCache]
  · simp [copyFiles]

/-- C7: the external list command runs at most once per adapter instance —
across two sequential `is_installed` calls the combined trace holds at
most one list query and the second call never queries; on a cache miss the
first call stores the lower-cased list result in the instance cache, and a
populated cache is answered with no external call at all. -/
theorem c7_installed_set_cached (m : Manager) (st : ManagerState) (env : Env)
    (pid1 pid2 : String) :
    (((isInstalled m pid1 st env).2.2
        ++ (isInstalled m pid2 (isInstalled m pid1 st env).2.1 env).2.2).filter
        Effect.isListQuery).length ≤ 1 ∧
    (isInstalled m pid2 (isInstalled m pid1 st env).2.1 env).2.2 = [] ∧
    (st.installedCache = none →
       (isInstalled m pid1 st env).2.1.installedCache = some (cacheLines m env) ∧
       (isInstalled m pid1 st env).2.2 = [Effect.listQuery m]) ∧
    (∀ c, st.installedCache = some c →
       isInstalled m pid1 st env = (memberCheck m pid1 c, st, [])) := by
  cases h : st.installedCache <;>
    simp [isInstalled, getInstalledPackages, h, Effect.isListQuery]

/-- Witness for C7: on a fresh brew adapter the first `is_installed` emits
exactly one list query and fills the cache; the second emits none. -/
theorem c7_installed_set_cached_witness :
    (isInstalled .brew "git" {} envBase).2.2 = [Effect.listQuery .brew] ∧
    (isInstalled .brew "ripgrep" (isInstalled .brew "git" {} envBase).2.1 envBase).2.2
      = [] ∧
    (isInstalled .brew "git" {} envBase).2.1.installedCache
      = some (cacheLines .brew envBase) := by
  refine ⟨((c7_installed_set_cached .brew {} envBase "git" "ripgrep").2.2.1 rfl).2,
    (c7_installed_set_cached .brew {} envBase "git" "ripgrep").2.1,
    ((c7_installed_set_cached .brew {} envBase "git" "ripgrep").2.2.1 rfl).1⟩

/-- C2 counterexample: for the config whose single package section is
named "other", on macos the status reporter iterates section "other" (and
counts its brew-resolvable package: total_count = 1) while the installer's
fixed section list does not contain "other" and the install run touches no
package (all counters 0) — so the two section sets differ. -/
theorem c2_counterexample :
    "other" ∈ statusSections cfgOther .macos ∧
    "other" ∉ sectionsFor .macos ∧
    ¬(∀ s, s ∈ statusSections cfgOther .macos ↔ s ∈ sectionsFor .macos) ∧
    (showStatus cfgOther .macos envBase).1.2 = 1 ∧
    (installPackages cfgOther .macos .brew {} envBase false).1 = (0, 0, 0) := by
  refine ⟨by decide, by decide, fun h => ?_, rfl, rfl⟩
  exact absurd ((h "other").1 (by decide)) (by decide)

/-- C2 (amended): for configs whose package sections all use the known
section names, a section is iterated by the status reporter exactly when
it is in the installer's fixed section list for the platform and present
in the config; and the status reporter performs no mutating effect — in
particular it never invokes `install` (it only queries `is_installed`). -/
theorem c2_status_mirrors_installer (config : Config) (p : Platform) (env : Env)
    (hk : ∀ s ∈ config.packages.map Prod.fst, s ∈ knownSections) :
    (∀ s, s ∈ statusSections config p ↔
       (s ∈ sectionsFor p ∧ s ∈ config.packages.map Prod.fst)) ∧
    (∀ e ∈ (showStatus config p env).2, e.isMutation = false) := by
  refine ⟨fun s => ?_, showStatus_effects config p env⟩
  unfold statusSections
  rw [List.mem_filter]
  constructor
  · rintro ⟨hmem, hkeep⟩
    exact ⟨(statusKeeps_iff_mem s p (hk s hmem)).1 (by simpa using hkeep), hmem⟩
  · rintro ⟨hsec, hmem⟩
    exact ⟨hmem, by simpa using (statusKeeps_iff_mem s p (hk s hmem)).2 hsec⟩

/-- Witness for C2 at a concrete config with known sections: on macos the
status reporter iterates "common" but not the Windows-gated "gui_only". -/
theorem c2_status_mirrors_installer_witness :
    "common" ∈ statusSections cfgKnown .macos ∧
    "gui_only" ∉ statusSections cfgKnown .macos := by
  have h := c2_status_mirrors_installer cfgKnown .macos envBase (by decide)
  refine ⟨((h.1 "common").2 ⟨by decide, by decide⟩), fun hmem => ?_⟩
  exact absurd ((h.1 "gui_only").1 hmem).1 (by decide)

/-- C3 counterexample: with the `status` command on macos and no package
manager available, the process prints the platform error but exits with
code 0 — not the nonzero configuration/platform-error code (2) the claim
requires — while performing no installs or copies (the trace holds only
the error print). -/
theorem c3_counterexample :
    mainStatus cfgBareGit .macos envNoManager
      = (0, [Effect.printError "No package manager found for macos"]) := rfl

/-- C3 (amended): when the command is `status` on a supported platform and
no package manager is available, the process prints an error and exits
with code 0 (not the platform-error code 2), performing no installs or
file copies. -/
theorem c3_status_no_manager (config : Config) (p : Platform) (env : Env)
    (hp : p ≠ .unknown) (hw : env.wingetAvailable = false)
    (hb : env.brewAvailable = false) (ha : env.aptAvailable = false) :
    (mainStatus config p env).1 = 0 ∧
    (∃ msg, Effect.printError msg ∈ (mainStatus config p env).2) ∧
    (∀ e ∈ (mainStatus config p env).2, e.isMutation = false) := by
  cases p with
  | unknown => exact absurd rfl hp
  | windows =>
      simp [mainStatus, showStatus, getPackageManager, hw, Effect.isMutation]
  | wsl =>
      simp [mainStatus, showStatus, getPackageManager, hb, ha, Effect.isMutation]
  | macos =>
      simp [mainStatus, showStatus, getPackageManager, hb, Effect.isMutation]

/-- Witness for C3 (amended) on a concrete platform and world: wsl with
nothing available. -/
theorem c3_status_no_manager_witness :
    (mainStatus cfgBareGit .wsl envNoManager).1 = 0 ∧
    (∃ msg, Effect.printError msg ∈ (mainStatus cfgBareGit .wsl envNoManager).2) ∧
    (∀ e ∈ (mainStatus cfgBareGit .wsl envNoManager).2, e.isMutation = false) :=
  c3_status_no_manager cfgBareGit .wsl envNoManager (by decide) rfl rfl rfl

/-- C10: a mapping whose destination resolves but whose source is missing
is classified FAIL with no filesystem effect (no parent directory created,
nothing written); an exception inside the copy try-block (from mkdir or
from the copy itself) is converted to a FAIL for that entry only; and the
file loop always continues after each entry, accumulating counts and
effects entry by entry. -/
theorem c10_copy_fail_isolated (fm : FileMapping) (p : Platform) (env : Env)
    (dest : String) :
    (fm.get_destination p env = some dest → env.sourceExists fm.source = false →
       copyOne fm p env = ((0, 0, 1), [])) ∧
    (fm.get_destination p env = some dest → env.sourceExists fm.source = true →
       env.mkdirOk (parentOf dest) = true → env.copyOk fm.source dest = false →
       copyOne fm p env = ((0, 0, 1), [Effect.mkdirP (parentOf dest)])) ∧
    (fm.get_destination p env = some dest → env.sourceExists fm.source = true →
       env.mkdirOk (parentOf dest) = false → copyOne fm p env = ((0, 0, 1), [])) ∧
    (∀ rest, copyFilesNormal p env (fm :: rest)
       = (addCounts (copyOne fm p env).1 (copyFilesNormal p env rest).1,
          (copyOne fm p env).2 ++ (copyFilesNormal p env rest).2)) := by
  refine ⟨fun hd hs => ?_, fun hd hs hm hc => ?_, fun hd hs hm => ?_,
    fun rest => rfl⟩ <;>
    simp [copyOne, hd, hs, *]

/-- Witness for C10 on the `"dotfiles/.zshrc" = "~/.zshrc"` mapping:
missing source gives FAIL with no effects; a raising copy gives FAIL with
only the mkdir that preceded it. -/
theorem c10_copy_fail_isolated_witness :
    copyOne fmZshrc .macos envBase = ((0, 0, 1), []) ∧
    copyOne fmZshrc .macos envCopyFail
      = ((0, 0, 1), [Effect.mkdirP "/home/user"]) := by
  constructor
  · exact (c10_copy_fail_isolated fmZshrc .macos envBase "/home/user/.zshrc").1
      (by decide) rfl
  · exact (c10_copy_fail_isolated fmZshrc .macos envCopyFail "/home/user/.zshrc").2.1
      (by decide) rfl (by decide) rfl

end DevSetup
